import Mathlib

/-!
Verification development for the SchemaViewer component of the
json-schema-viewer repository (src/src/components/SchemaViewer.jsx).

The component keeps seven pieces of React state (schema, parsedSchema, view,
error, copied, jsonInput, showSampleDropdown) and mutates them through the
handlers handleFileUpload, handleJsonInput, handleUrlLoad, handleExport,
handleCopy and loadExample, plus a useEffect that re-runs parseSchema
whenever the schema state is replaced.

The embedding below models:
  - JSON values (as produced by JSON.parse and consumed by JSON.stringify);
    numbers are modelled as integers, the floating-point details of
    JavaScript numbers are outside the model;
  - the two-space-indent serializer JSON.stringify(v, null, 2);
  - the parser JSON.parse as a fuel-indexed recursive descent parser
    (fuel is one more than the input length, enough for any input);
  - the component state and each handler as a state transition; the
    parseSchema utility lives in a file that is not part of the excerpt, so
    the normalization step is modelled as an oracle p : Json -> Option T
    (p v = none models parseSchema throwing on v);
  - JavaScript truthiness of the schema value, which guards the
    normalization effect, the render branches and the copy/export handlers.
-/

/-! Part 1: JSON values. -/

mutual

inductive Json where
  | null : Json
  | bool (b : Bool) : Json
  | num (n : Int) : Json
  | str (s : String) : Json
  | arr (items : JsonList) : Json
  | obj (members : JsonMembers) : Json
  deriving DecidableEq

inductive JsonList where
  | nil : JsonList
  | cons (hd : Json) (tl : JsonList) : JsonList
  deriving DecidableEq

inductive JsonMembers where
  | nil : JsonMembers
  | cons (key : String) (val : Json) (tl : JsonMembers) : JsonMembers
  deriving DecidableEq

end

/-! Part 2: character utilities shared by the serializer and the parser. -/

def isWsChar (c : Char) : Bool :=
  c = ' ' || c = '\n' || c = '\t' || c = '\r'

def skipWs : List Char → List Char
  | [] => []
  | c :: cs => if isWsChar c then skipWs cs else c :: cs

def isDigitChar (c : Char) : Bool :=
  48 ≤ c.toNat && c.toNat ≤ 57

def digitChar (d : Nat) : Char := Char.ofNat (48 + d)

def hexDigitChar (d : Nat) : Char :=
  if d < 10 then Char.ofNat (48 + d) else Char.ofNat (87 + d)

def hexVal (c : Char) : Option Nat :=
  if 48 ≤ c.toNat ∧ c.toNat ≤ 57 then some (c.toNat - 48)
  else if 97 ≤ c.toNat ∧ c.toNat ≤ 102 then some (c.toNat - 87)
  else if 65 ≤ c.toNat ∧ c.toNat ≤ 70 then some (c.toNat - 55)
  else none

/-- Decimal digits of a natural number, most significant first. -/
def natDigits (n : Nat) : List Char :=
  if _h : n < 10 then [digitChar n]
  else natDigits (n / 10) ++ [digitChar (n % 10)]
termination_by n
decreasing_by exact Nat.div_lt_self (by omega) (by omega)

/-- Decimal representation of an integer, as JSON.stringify prints it. -/
def intChars (n : Int) : List Char :=
  if n < 0 then '-' :: natDigits n.natAbs else natDigits n.toNat

/-- Escape of a single character inside a JSON string literal, exactly as
JSON.stringify escapes it: quote, backslash, the named control escapes, and a
four-digit lowercase hexadecimal escape for the remaining control
characters. -/
def escapeChar (c : Char) : List Char :=
  if c = '"' then ['\\', '"']
  else if c = '\\' then ['\\', '\\']
  else if c = '\n' then ['\\', 'n']
  else if c = '\r' then ['\\', 'r']
  else if c = '\t' then ['\\', 't']
  else if c = '\x08' then ['\\', 'b']
  else if c = '\x0c' then ['\\', 'f']
  else if c.toNat < 32 then
    ['\\', 'u', '0', '0', hexDigitChar (c.toNat / 16), hexDigitChar (c.toNat % 16)]
  else [c]

def escapeList : List Char → List Char
  | [] => []
  | c :: cs => escapeChar c ++ escapeList cs

/-- Indentation used by JSON.stringify(v, null, 2): two spaces per depth. -/
def indentChars (d : Nat) : List Char := List.replicate (2 * d) ' '

/-! Part 3: the serializer, JSON.stringify(v, null, 2). -/

mutual

def serVal : Json → Nat → List Char
  | .null, _ => ['n', 'u', 'l', 'l']
  | .bool true, _ => ['t', 'r', 'u', 'e']
  | .bool false, _ => ['f', 'a', 'l', 's', 'e']
  | .num n, _ => intChars n
  | .str s, _ => '"' :: (escapeList s.data ++ ['"'])
  | .arr .nil, _ => ['[', ']']
  | .arr (.cons x xs), d =>
      '[' :: '\n' :: (serItems (.cons x xs) (d + 1) ++ '\n' :: (indentChars d ++ [']']))
  | .obj .nil, _ => ['\x7b', '\x7d']
  | .obj (.cons k v ms), d =>
      '\x7b' :: '\n' :: (serMembers (.cons k v ms) (d + 1) ++ '\n' :: (indentChars d ++ ['\x7d']))

def serItems : JsonList → Nat → List Char
  | .nil, _ => []
  | .cons x .nil, d => indentChars d ++ serVal x d
  | .cons x (.cons y ys), d =>
      indentChars d ++ (serVal x d ++ ',' :: '\n' :: serItems (.cons y ys) d)

def serMembers : JsonMembers → Nat → List Char
  | .nil, _ => []
  | .cons k v .nil, d =>
      indentChars d ++ '"' :: (escapeList k.data ++ '"' :: ':' :: ' ' :: serVal v d)
  | .cons k v (.cons k2 v2 ms), d =>
      indentChars d ++ '"' :: (escapeList k.data ++ '"' :: ':' :: ' ' ::
        (serVal v d ++ ',' :: '\n' :: serMembers (.cons k2 v2 ms) d))

end

/-- Serialization of a document: the text JSON.stringify(v, null, 2). -/
def serialize (v : Json) : String := String.mk (serVal v 0)

/-! Part 4: the parser, JSON.parse, as a fuel-indexed recursive descent.
Strings and numbers are parsed by structurally recursive helpers; the three
mutually recursive nonterminals (value, array items, object members) are tied
together by a single structural recursion on fuel so that every definition
is executable and reduces in the kernel. -/

/-- Body of a JSON string literal after the opening quote; returns the
decoded characters and the input after the closing quote. -/
def parseStringBody : List Char → Option (List Char × List Char)
  | [] => none
  | c :: rest =>
    if c = '"' then some ([], rest)
    else if c = '\\' then
      match rest with
      | [] => none
      | e :: rest2 =>
        if e = '"' then (parseStringBody rest2).map fun p => ('"' :: p.1, p.2)
        else if e = '\\' then (parseStringBody rest2).map fun p => ('\\' :: p.1, p.2)
        else if e = '/' then (parseStringBody rest2).map fun p => ('/' :: p.1, p.2)
        else if e = 'n' then (parseStringBody rest2).map fun p => ('\n' :: p.1, p.2)
        else if e = 'r' then (parseStringBody rest2).map fun p => ('\r' :: p.1, p.2)
        else if e = 't' then (parseStringBody rest2).map fun p => ('\t' :: p.1, p.2)
        else if e = 'b' then (parseStringBody rest2).map fun p => ('\x08' :: p.1, p.2)
        else if e = 'f' then (parseStringBody rest2).map fun p => ('\x0c' :: p.1, p.2)
        else if e = 'u' then
          match rest2 with
          | h1 :: h2 :: h3 :: h4 :: rest3 =>
            match hexVal h1, hexVal h2, hexVal h3, hexVal h4 with
            | some a, some b, some c2, some d2 =>
              (parseStringBody rest3).map fun p =>
                (Char.ofNat (4096 * a + 256 * b + 16 * c2 + d2) :: p.1, p.2)
            | _, _, _, _ => none
          | _ => none
        else none
    else if c.toNat < 32 then none
    else (parseStringBody rest).map fun p => (c :: p.1, p.2)

/-- Longest leading run of decimal digits. -/
def takeDigits : List Char → List Char × List Char
  | [] => ([], [])
  | c :: cs =>
    if isDigitChar c then
      ((c :: (takeDigits cs).1), (takeDigits cs).2)
    else ([], c :: cs)

def digitsValAux (acc : Nat) : List Char → Nat
  | [] => acc
  | c :: cs => digitsValAux (10 * acc + (c.toNat - 48)) cs

def digitsVal (ds : List Char) : Nat := digitsValAux 0 ds

/-- Integer literal parser (the model restricts JSON numbers to integers). -/
def parseNumber : List Char → Option (Json × List Char)
  | [] => none
  | c :: cs =>
    if c = '-' then
      match takeDigits cs with
      | (d :: ds, r) => some (.num (-(digitsVal (d :: ds) : Int)), r)
      | ([], _) => none
    else
      match takeDigits (c :: cs) with
      | (d :: ds, r) => some (.num ((digitsVal (d :: ds) : Int)), r)
      | ([], _) => none

/-- One step of the value parser, parameterized by the parsers for array
items and object members at the next smaller fuel. The input is assumed to
start at a token (whitespace already skipped by the caller). -/
def parseCoreAux (pItems : List Char → Option (JsonList × List Char))
    (pMembers : List Char → Option (JsonMembers × List Char)) :
    List Char → Option (Json × List Char)
  | [] => none
  | c :: cs =>
    if c = 'n' then
      match cs with
      | 'u' :: 'l' :: 'l' :: rest => some (Json.null, rest)
      | _ => none
    else if c = 't' then
      match cs with
      | 'r' :: 'u' :: 'e' :: rest => some (Json.bool true, rest)
      | _ => none
    else if c = 'f' then
      match cs with
      | 'a' :: 'l' :: 's' :: 'e' :: rest => some (Json.bool false, rest)
      | _ => none
    else if c = '"' then
      (parseStringBody cs).map fun p => (Json.str (String.mk p.1), p.2)
    else if c = '[' then
      match skipWs cs with
      | [] => none
      | d :: r =>
        if d = ']' then some (Json.arr JsonList.nil, r)
        else (pItems cs).map fun p => (Json.arr p.1, p.2)
    else if c = '\x7b' then
      match skipWs cs with
      | [] => none
      | d :: r =>
        if d = '\x7d' then some (Json.obj JsonMembers.nil, r)
        else (pMembers cs).map fun p => (Json.obj p.1, p.2)
    else if c = '-' || isDigitChar c then parseNumber (c :: cs)
    else none

/-- One step of the comma-separated array item list parser. -/
def parseItemsAux (pCore : List Char → Option (Json × List Char))
    (pItems : List Char → Option (JsonList × List Char))
    (cs : List Char) : Option (JsonList × List Char) :=
  (pCore (skipWs cs)).bind fun vr =>
    match skipWs vr.2 with
    | [] => none
    | d :: r2 =>
      if d = ',' then
        (pItems r2).map fun p => (JsonList.cons vr.1 p.1, p.2)
      else if d = ']' then some (JsonList.cons vr.1 JsonList.nil, r2)
      else none

/-- One step of the comma-separated object member list parser. -/
def parseMembersAux (pCore : List Char → Option (Json × List Char))
    (pMembers : List Char → Option (JsonMembers × List Char))
    (cs : List Char) : Option (JsonMembers × List Char) :=
  match skipWs cs with
  | [] => none
  | c0 :: r =>
    if c0 = '"' then
      (parseStringBody r).bind fun kr =>
        match skipWs kr.2 with
        | [] => none
        | c1 :: r2 =>
          if c1 = ':' then
            (pCore (skipWs r2)).bind fun vr =>
              match skipWs vr.2 with
              | [] => none
              | c2 :: r4 =>
                if c2 = ',' then
                  (pMembers r4).map fun p =>
                    (JsonMembers.cons (String.mk kr.1) vr.1 p.1, p.2)
                else if c2 = '\x7d' then
                  some (JsonMembers.cons (String.mk kr.1) vr.1 JsonMembers.nil, r4)
                else none
          else none
    else none

/-- The three mutually recursive parsers, tied by structural recursion on
fuel: value parser, array item list parser, object member list parser. -/
def parsers : Nat →
    ((List Char → Option (Json × List Char)) ×
     (List Char → Option (JsonList × List Char)) ×
     (List Char → Option (JsonMembers × List Char)))
  | 0 => (fun _ => none, fun _ => none, fun _ => none)
  | n + 1 =>
    (parseCoreAux (parsers n).2.1 (parsers n).2.2,
     parseItemsAux (parsers n).1 (parsers n).2.1,
     parseMembersAux (parsers n).1 (parsers n).2.2)

def parseCore (n : Nat) : List Char → Option (Json × List Char) := (parsers n).1

def parseItems (n : Nat) : List Char → Option (JsonList × List Char) := (parsers n).2.1

def parseMembers (n : Nat) : List Char → Option (JsonMembers × List Char) := (parsers n).2.2

/-- The model of JSON.parse: parse one value, allowing surrounding
whitespace, and require the whole input to be consumed. The fuel, one more
than the input length, bounds the nesting depth and is enough for any input
because every nesting level consumes at least one character. -/
def parseJson (s : String) : Option Json :=
  match parseCore (s.data.length + 1) (skipWs s.data) with
  | some (v, rest) => if skipWs rest = [] then some v else none
  | none => none

/-! Part 5: sizes used as fuel bounds in the round-trip proof. -/

mutual

def sizeVal : Json → Nat
  | .null => 1
  | .bool _ => 1
  | .num _ => 1
  | .str _ => 1
  | .arr xs => 1 + sizeItems xs
  | .obj ms => 1 + sizeMembers ms

def sizeItems : JsonList → Nat
  | .nil => 0
  | .cons x xs => 1 + sizeVal x + sizeItems xs

def sizeMembers : JsonMembers → Nat
  | .nil => 0
  | .cons _ v ms => 1 + sizeVal v + sizeMembers ms

end

/-! Part 6: the component state machine of SchemaViewer.jsx. -/

/-- View mode state, the string union used at line 11 of the source. -/
inductive ViewMode where
  | explorer : ViewMode
  | visualize : ViewMode
  | source : ViewMode
  deriving DecidableEq

/-- The React state of the SchemaViewer component (lines 9 to 16), with the
parsed-schema representation abstract in T because the parseSchema utility
is outside the excerpt. -/
structure AppState (T : Type) where
  schema : Option Json
  parsedSchema : Option T
  view : ViewMode
  error : Option String
  copied : Bool
  jsonInput : String
  showSampleDropdown : Bool
  deriving DecidableEq

def initialState (T : Type) : AppState T :=
  { schema := none, parsedSchema := none, view := ViewMode.explorer,
    error := none, copied := false, jsonInput := "", showSampleDropdown := false }

/-- JavaScript truthiness of a JSON value, deciding the guards written as
if (schema) and the render branch written as !schema in the source. -/
def truthy : Json → Bool
  | .null => false
  | .bool b => b
  | .num n => n != 0
  | .str s => s != ""
  | .arr _ => true
  | .obj _ => true

/-- Truthiness of value.trim() in handleJsonInput, line 68: the trimmed
string is nonempty exactly when some character is not whitespace. -/
def jsTrimNonempty (s : String) : Bool :=
  s.data.any (fun c => !(isWsChar c))

/-- The useEffect at lines 126 to 135: whenever a (truthy) schema is
present, run parseSchema on it; on success store the result in
parsedSchema, on an exception set the error banner. The oracle p models
the parseSchema utility, with p v = none modelling a thrown exception. -/
def runParseEffect {T : Type} (p : Json → Option T) (s : AppState T) : AppState T :=
  match s.schema with
  | some v =>
    if truthy v then
      match p v with
      | some t => { s with parsedSchema := some t }
      | none => { s with error := some "Failed to parse schema" }
    else s
  | none => s

/-- The handler handleFileUpload (lines 47 to 63), given the text read from
the chosen file: parse it, and on success store the document, mirror its
serialization into the editor text and clear the error; on a parse failure
set the invalid-file error and change nothing else. -/
def handleFileUpload {T : Type} (fileText : String) (s : AppState T) : AppState T :=
  match parseJson fileText with
  | some content =>
    { s with schema := some content, jsonInput := serialize content, error := none }
  | none => { s with error := some "Invalid JSON file" }

/-- The handler handleJsonInput (lines 65 to 76): always store the editor
text; if the trimmed text is nonempty, parse it, on success storing the
document and clearing the error, on failure setting the invalid-format
error; whitespace-only text is stored without any parse attempt. -/
def handleJsonInput {T : Type} (value : String) (s : AppState T) : AppState T :=
  if jsTrimNonempty value then
    match parseJson value with
    | some parsed => { s with jsonInput := value, schema := some parsed, error := none }
    | none => { s with jsonInput := value, error := some "Invalid JSON format" }
  else { s with jsonInput := value }

/-- The resolution of handleUrlLoad (lines 78 to 91), given the outcome of
awaiting fetch(url) followed by response.json(): some data on success, none
when the fetch or the body parse rejects. -/
def handleUrlLoad {T : Type} (fetched : Option Json) (s : AppState T) : AppState T :=
  match fetched with
  | some data =>
    { s with schema := some data, jsonInput := serialize data, error := none }
  | none => { s with error := some "Failed to load schema from URL" }

/-- The resolution of loadExample (lines 113 to 124), given the outcome of
fetching the sample path; on success it additionally closes the dropdown. -/
def loadExample {T : Type} (fetched : Option Json) (s : AppState T) : AppState T :=
  match fetched with
  | some data =>
    { s with schema := some data, jsonInput := serialize data, error := none,
             showSampleDropdown := false }
  | none => { s with error := some "Failed to load example schema" }

/-- A file upload followed by the schema effect: the useEffect at lines 126
to 135 re-runs exactly when the schema state was replaced, which happens
exactly on the success branch of the handler. -/
def fileUploadOp {T : Type} (p : Json → Option T) (fileText : String)
    (s : AppState T) : AppState T :=
  match parseJson fileText with
  | some _ => runParseEffect p (handleFileUpload fileText s)
  | none => handleFileUpload fileText s

/-- An editor input followed by the schema effect (run exactly when the
success branch replaced the schema state). -/
def jsonInputOp {T : Type} (p : Json → Option T) (value : String)
    (s : AppState T) : AppState T :=
  if jsTrimNonempty value then
    match parseJson value with
    | some _ => runParseEffect p (handleJsonInput value s)
    | none => handleJsonInput value s
  else handleJsonInput value s

/-- A settled URL load followed by the schema effect. -/
def urlLoadOp {T : Type} (p : Json → Option T) (fetched : Option Json)
    (s : AppState T) : AppState T :=
  match fetched with
  | some _ => runParseEffect p (handleUrlLoad fetched s)
  | none => handleUrlLoad fetched s

/-- A settled sample load followed by the schema effect. -/
def loadExampleOp {T : Type} (p : Json → Option T) (fetched : Option Json)
    (s : AppState T) : AppState T :=
  match fetched with
  | some _ => runParseEffect p (loadExample fetched s)
  | none => loadExample fetched s

/-- Two overlapping asynchronous loads that resolve out of order. The load
whose result is firstInitiated was initiated first; before it resolved, a
second load with result secondInitiated was initiated and resolved first.
The code awaits each fetch and applies its setters when the response
arrives, with no request token, so the state transitions are applied in
arrival order: second-initiated first, first-initiated last. -/
def overlappingLoadsOutOfOrder {T : Type} (p : Json → Option T)
    (firstInitiated secondInitiated : Option Json) (s : AppState T) : AppState T :=
  urlLoadOp p firstInitiated (urlLoadOp p secondInitiated s)

/-- The handler handleExport (lines 93 to 103): when a truthy schema is
present, produce the downloaded file content JSON.stringify(schema, null, 2)
under the fixed name schema.json; the state is not changed. The result
pairs the state with the produced download, none when nothing happens. -/
def handleExport {T : Type} (s : AppState T) : AppState T × Option (String × String) :=
  match s.schema with
  | some v => if truthy v then (s, some (serialize v, "schema.json")) else (s, none)
  | none => (s, none)

/-- The handler handleCopy (lines 105 to 111): when a truthy schema is
present, write JSON.stringify(schema, null, 2) to the clipboard and set the
copied flag. The clipboardOk argument models whether the clipboard write
succeeds; the code does not await or catch the returned promise, so the
resulting state does not depend on it. The result pairs the state with the
text handed to the clipboard, none when nothing happens. -/
def handleCopy {T : Type} (clipboardOk : Bool) (s : AppState T) :
    AppState T × Option String :=
  match s.schema with
  | some v => if truthy v then ({ s with copied := true }, some (serialize v)) else (s, none)
  | none => (s, none)

/-- A view mode switch, the onClick of the three buttons at lines 199 to
230: setView(m) and nothing else. -/
def setViewOp {T : Type} (m : ViewMode) (s : AppState T) : AppState T :=
  { s with view := m }

/-- What the main area renders (lines 268 to 319). -/
inductive Rendered where
  | pasteEditor (text : String) : Rendered
  | explorerView (schema root : Json) : Rendered
  | graphView (schema root : Json) : Rendered
  | sourceView (text : String) : Rendered
  deriving DecidableEq

/-- The render of the main area: with no truthy schema, the paste editor
bound to jsonInput; otherwise the active view, where the source view is a
read-only editor showing JSON.stringify(schema, null, 2). -/
def render {T : Type} (s : AppState T) : Rendered :=
  match s.schema with
  | some v =>
    if truthy v then
      match s.view with
      | ViewMode.explorer => Rendered.explorerView v v
      | ViewMode.visualize => Rendered.graphView v v
      | ViewMode.source => Rendered.sourceView (serialize v)
    else Rendered.pasteEditor s.jsonInput
  | none => Rendered.pasteEditor s.jsonInput

/-- A concrete state with the falsy Document false loaded, reachable by
pasting the text false. -/
def loadedFalseState : AppState Unit :=
  { schema := some (Json.bool false), parsedSchema := none,
    view := ViewMode.explorer, error := none, copied := false, jsonInput := "false",
    showSampleDropdown := false }

/-- A concrete state with the truthy Document given by an empty object
loaded. -/
def loadedObjState : AppState Unit :=
  { schema := some (Json.obj JsonMembers.nil), parsedSchema := some (),
    view := ViewMode.source, error := none, copied := false, jsonInput := "",
    showSampleDropdown := false }

/-! Part 7: proof-support definitions for the round-trip proof. -/

/-- The input does not begin with a decimal digit, so a digit run read just
before it is maximal. -/
def notDigitStart : List Char → Prop
  | [] => True
  | c :: _ => isDigitChar c = false

/-- What may legally follow a serialized value inside a bigger
serialization: nothing, a comma, or a newline. -/
def Delim : List Char → Prop
  | [] => True
  | c :: _ => c = ',' ∨ c = '\n'

/-- The text that follows one serialized array item: nothing before the
closing context when the item is last, otherwise a comma, a newline and the
remaining items. -/
def afterItem (tl : JsonList) (d2 : Nat) (ys : List Char) : List Char :=
  match tl with
  | .nil => ys
  | .cons y ys2 => ',' :: '\n' :: (serItems (JsonList.cons y ys2) d2 ++ ys)

/-- The text that follows one serialized object member. -/
def afterMember (tl : JsonMembers) (d2 : Nat) (ys : List Char) : List Char :=
  match tl with
  | .nil => ys
  | .cons k2 v2 ms2 => ',' :: '\n' :: (serMembers (JsonMembers.cons k2 v2 ms2) d2 ++ ys)

/-! Part 8: helper lemmas about whitespace, digits and string escapes. -/

theorem skipWs_cons_not_ws {c : Char} (h : isWsChar c = false) (cs : List Char) :
    skipWs (c :: cs) = c :: cs := by
  simp [skipWs, h]

theorem skipWs_ws_append {xs : List Char} (h : ∀ c ∈ xs, isWsChar c = true)
    (ys : List Char) : skipWs (xs ++ ys) = skipWs ys := by
  induction xs with
  | nil => simp
  | cons c cs ih =>
    have hc : isWsChar c = true := h c (List.mem_cons_self c cs)
    have ih2 := ih (fun c2 h2 => h c2 (List.mem_cons_of_mem c h2))
    simpa [skipWs, hc] using ih2

theorem skipWs_indent (d : Nat) (ys : List Char) :
    skipWs (indentChars d ++ ys) = skipWs ys := by
  apply skipWs_ws_append
  intro c hc
  have := List.eq_of_mem_replicate (by simpa [indentChars] using hc)
  subst this
  decide

theorem skipWs_newline (ys : List Char) : skipWs ('\n' :: ys) = skipWs ys := by
  simp [skipWs, isWsChar]

theorem skipWs_space (ys : List Char) : skipWs (' ' :: ys) = skipWs ys := by
  simp [skipWs, isWsChar]

theorem digitChar_toNat : ∀ m, m < 10 → (digitChar m).toNat = 48 + m := by decide

theorem isDigitChar_digitChar : ∀ m, m < 10 → isDigitChar (digitChar m) = true := by decide

theorem hexVal_hexDigitChar : ∀ m, m < 16 → hexVal (hexDigitChar m) = some m := by decide

theorem natDigits_ne_nil (n : Nat) : natDigits n ≠ [] := by
  rw [natDigits]
  split
  · simp
  · simp

theorem natDigits_all_digits (n : Nat) : ∀ c ∈ natDigits n, isDigitChar c = true := by
  induction n using Nat.strong_induction_on with
  | _ n ih =>
    rw [natDigits]
    split
    · next h =>
      intro c hc
      simp only [List.mem_singleton] at hc
      subst hc
      exact isDigitChar_digitChar n h
    · next h =>
      intro c hc
      rw [List.mem_append] at hc
      rcases hc with hc | hc
      · exact ih (n / 10) (Nat.div_lt_self (by omega) (by omega)) c hc
      · simp only [List.mem_singleton] at hc
        subst hc
        exact isDigitChar_digitChar _ (Nat.mod_lt _ (by omega))

theorem digitsValAux_nil (a : Nat) : digitsValAux a [] = a := rfl

theorem digitsValAux_cons (a : Nat) (c : Char) (cs : List Char) :
    digitsValAux a (c :: cs) = digitsValAux (10 * a + (c.toNat - 48)) cs := rfl

theorem digitsValAux_append (a : Nat) (xs ys : List Char) :
    digitsValAux a (xs ++ ys) = digitsValAux (digitsValAux a xs) ys := by
  induction xs generalizing a with
  | nil => rw [List.nil_append, digitsValAux_nil]
  | cons c cs ih => rw [List.cons_append, digitsValAux_cons, digitsValAux_cons, ih]

theorem digitsVal_natDigits (n : Nat) : digitsVal (natDigits n) = n := by
  induction n using Nat.strong_induction_on with
  | _ n ih =>
    rw [natDigits]
    split
    · next h =>
      simp only [digitsVal]
      rw [digitsValAux_cons, digitsValAux_nil, digitChar_toNat n h]
      omega
    · next h =>
      have ihd := ih (n / 10) (Nat.div_lt_self (by omega) (by omega))
      simp only [digitsVal] at ihd ⊢
      rw [digitsValAux_append, ihd, digitsValAux_cons, digitsValAux_nil]
      rw [digitChar_toNat (n % 10) (Nat.mod_lt _ (by omega))]
      omega

theorem takeDigits_of_not_digit {rest : List Char} (h : notDigitStart rest) :
    takeDigits rest = ([], rest) := by
  cases rest with
  | nil => rfl
  | cons c r =>
    simp only [notDigitStart] at h
    simp [takeDigits, h]

theorem takeDigits_append {ds : List Char} (h1 : ∀ c ∈ ds, isDigitChar c = true)
    {rest : List Char} (h2 : notDigitStart rest) :
    takeDigits (ds ++ rest) = (ds, rest) := by
  induction ds with
  | nil => simpa using takeDigits_of_not_digit h2
  | cons c cs ih =>
    have hc := h1 c (List.mem_cons_self c cs)
    have ih2 := ih (fun c2 hm => h1 c2 (List.mem_cons_of_mem c hm))
    simp [takeDigits, hc, ih2]

theorem delim_notDigitStart {rest : List Char} (h : Delim rest) :
    notDigitStart rest := by
  cases rest with
  | nil => trivial
  | cons c r =>
    simp only [Delim] at h
    simp only [notDigitStart]
    rcases h with h | h <;> subst h <;> decide

theorem parseNumber_cons (c : Char) (cs : List Char) :
    parseNumber (c :: cs) =
      if c = '-' then
        match takeDigits cs with
        | (d :: ds, r) => some (.num (-(digitsVal (d :: ds) : Int)), r)
        | ([], _) => none
      else
        match takeDigits (c :: cs) with
        | (d :: ds, r) => some (.num ((digitsVal (d :: ds) : Int)), r)
        | ([], _) => none := rfl

theorem parseNumber_intChars (n : Int) {rest : List Char} (h : notDigitStart rest) :
    parseNumber (intChars n ++ rest) = some (Json.num n, rest) := by
  by_cases hn : n < 0
  · have htd : takeDigits (natDigits n.natAbs ++ rest) = (natDigits n.natAbs, rest) :=
      takeDigits_append (natDigits_all_digits _) h
    obtain ⟨c, t, hct⟩ := List.exists_cons_of_ne_nil (natDigits_ne_nil n.natAbs)
    have hval : digitsVal (c :: t) = n.natAbs := by
      rw [← hct, digitsVal_natDigits]
    rw [intChars, if_pos hn, List.cons_append, parseNumber_cons, if_pos rfl, htd, hct]
    show some (Json.num (-(digitsVal (c :: t) : Int)), rest) = some (Json.num n, rest)
    have hneg : -((digitsVal (c :: t) : Int)) = n := by omega
    rw [hneg]
  · have htd : takeDigits (natDigits n.toNat ++ rest) = (natDigits n.toNat, rest) :=
      takeDigits_append (natDigits_all_digits _) h
    obtain ⟨c, t, hct⟩ := List.exists_cons_of_ne_nil (natDigits_ne_nil n.toNat)
    have hcd : isDigitChar c = true := by
      have hall := natDigits_all_digits n.toNat
      rw [hct] at hall
      exact hall c (List.mem_cons_self c t)
    have hcm : c ≠ '-' := by
      intro hc
      subst hc
      exact absurd hcd (by decide)
    have hval : digitsVal (c :: t) = n.toNat := by
      rw [← hct, digitsVal_natDigits]
    rw [intChars, if_neg hn, hct, List.cons_append, parseNumber_cons, if_neg hcm]
    rw [show c :: (t ++ rest) = (c :: t) ++ rest from (List.cons_append c t rest).symm]
    rw [← hct, htd, hct]
    show some (Json.num ((digitsVal (c :: t) : Int)), rest) = some (Json.num n, rest)
    have hpos : ((digitsVal (c :: t) : Int)) = n := by omega
    rw [hpos]

theorem string_mk_data (s : String) : String.mk s.data = s := rfl

theorem psb_quote (rest : List Char) : parseStringBody ('"' :: rest) = some ([], rest) := by
  rw [parseStringBody.eq_def]
  simp

theorem psb_esc_quote (rest : List Char) :
    parseStringBody ('\\' :: '"' :: rest) =
      (parseStringBody rest).map fun p => ('"' :: p.1, p.2) := by
  rw [parseStringBody.eq_def]
  simp

theorem psb_esc_bs (rest : List Char) :
    parseStringBody ('\\' :: '\\' :: rest) =
      (parseStringBody rest).map fun p => ('\\' :: p.1, p.2) := by
  rw [parseStringBody.eq_def]
  simp

theorem psb_esc_n (rest : List Char) :
    parseStringBody ('\\' :: 'n' :: rest) =
      (parseStringBody rest).map fun p => ('\n' :: p.1, p.2) := by
  rw [parseStringBody.eq_def]
  simp

theorem psb_esc_r (rest : List Char) :
    parseStringBody ('\\' :: 'r' :: rest) =
      (parseStringBody rest).map fun p => ('\r' :: p.1, p.2) := by
  rw [parseStringBody.eq_def]
  simp

theorem psb_esc_t (rest : List Char) :
    parseStringBody ('\\' :: 't' :: rest) =
      (parseStringBody rest).map fun p => ('\t' :: p.1, p.2) := by
  rw [parseStringBody.eq_def]
  simp

theorem psb_esc_b (rest : List Char) :
    parseStringBody ('\\' :: 'b' :: rest) =
      (parseStringBody rest).map fun p => ('\x08' :: p.1, p.2) := by
  rw [parseStringBody.eq_def]
  simp

theorem psb_esc_f (rest : List Char) :
    parseStringBody ('\\' :: 'f' :: rest) =
      (parseStringBody rest).map fun p => ('\x0c' :: p.1, p.2) := by
  rw [parseStringBody.eq_def]
  simp

theorem psb_esc_u {a b c2 d2 : Char} {x1 x2 x3 x4 : Nat}
    (e1 : hexVal a = some x1) (e2 : hexVal b = some x2)
    (e3 : hexVal c2 = some x3) (e4 : hexVal d2 = some x4) (rest : List Char) :
    parseStringBody ('\\' :: 'u' :: a :: b :: c2 :: d2 :: rest) =
      (parseStringBody rest).map fun p =>
        (Char.ofNat (4096 * x1 + 256 * x2 + 16 * x3 + x4) :: p.1, p.2) := by
  rw [parseStringBody.eq_def]
  simp [e1, e2, e3, e4]

theorem psb_plain {c : Char} (h1 : ¬ c = '"') (h2 : ¬ c = '\\')
    (h3 : ¬ c.toNat < 32) (rest : List Char) :
    parseStringBody (c :: rest) =
      (parseStringBody rest).map fun p => (c :: p.1, p.2) := by
  rw [parseStringBody.eq_def]
  simp [h1, h2, h3]

theorem parseStringBody_escape (cs rest : List Char) :
    parseStringBody (escapeList cs ++ '"' :: rest) = some (cs, rest) := by
  induction cs with
  | nil =>
    show parseStringBody ('"' :: rest) = some ([], rest)
    exact psb_quote rest
  | cons c cs ih =>
    show parseStringBody ((escapeChar c ++ escapeList cs) ++ '"' :: rest) = some (c :: cs, rest)
    rw [List.append_assoc]
    by_cases h1 : c = '"'
    · subst h1
      simp [escapeChar, psb_esc_quote, ih]
    by_cases h2 : c = '\\'
    · subst h2
      simp [escapeChar, h1, psb_esc_bs, ih]
    by_cases h3 : c = '\n'
    · subst h3
      simp [escapeChar, psb_esc_n, ih]
    by_cases h4 : c = '\r'
    · subst h4
      simp [escapeChar, psb_esc_r, ih]
    by_cases h5 : c = '\t'
    · subst h5
      simp [escapeChar, psb_esc_t, ih]
    by_cases h6 : c = '\x08'
    · subst h6
      simp [escapeChar, psb_esc_b, ih]
    by_cases h7 : c = '\x0c'
    · subst h7
      simp [escapeChar, psb_esc_f, ih]
    by_cases h8 : c.toNat < 32
    · have e1 : hexVal (hexDigitChar (c.toNat / 16)) = some (c.toNat / 16) :=
        hexVal_hexDigitChar _ (by omega)
      have e2 : hexVal (hexDigitChar (c.toNat % 16)) = some (c.toNat % 16) :=
        hexVal_hexDigitChar _ (by omega)
      have hz : hexVal '0' = some 0 := by decide
      have harith : 16 * (c.toNat / 16) + c.toNat % 16 = c.toNat := by omega
      rw [show escapeChar c =
        ['\\', 'u', '0', '0', hexDigitChar (c.toNat / 16), hexDigitChar (c.toNat % 16)] from by
          simp [escapeChar, h1, h2, h3, h4, h5, h6, h7, h8]]
      rw [List.cons_append, List.cons_append, List.cons_append, List.cons_append,
        List.cons_append, List.cons_append, List.nil_append]
      rw [psb_esc_u hz hz e1 e2, ih]
      show some (Char.ofNat (4096 * 0 + 256 * 0 + 16 * (c.toNat / 16) + c.toNat % 16) :: cs,
        rest) = some (c :: cs, rest)
      rw [show 4096 * 0 + 256 * 0 + 16 * (c.toNat / 16) + c.toNat % 16 = c.toNat from by omega]
      simp
    · rw [show escapeChar c = [c] from by simp [escapeChar, h1, h2, h3, h4, h5, h6, h7, h8]]
      rw [List.cons_append, List.nil_append, psb_plain h1 h2 h8, ih]
      rfl

theorem numStart_props {c : Char} (h : c = '-' ∨ isDigitChar c = true) :
    isWsChar c = false ∧ c ≠ ']' ∧ c ≠ '\x7d' ∧ c ≠ 'n' ∧ c ≠ 't' ∧ c ≠ 'f' ∧
      c ≠ '"' ∧ c ≠ '[' ∧ c ≠ '\x7b' := by
  rcases h with h | h
  · subst h
    refine ⟨by decide, by decide, by decide, by decide, by decide, by decide,
      by decide, by decide, by decide⟩
  · have hw : isWsChar c = false := by
      cases hb : isWsChar c with
      | false => rfl
      | true =>
        exfalso
        simp only [isWsChar, Bool.or_eq_true, decide_eq_true_eq] at hb
        rcases hb with ((he | he) | he) | he <;> (subst he; exact absurd h (by decide))
    refine ⟨hw, ?_, ?_, ?_, ?_, ?_, ?_, ?_, ?_⟩ <;>
      (intro he; subst he; exact absurd h (by decide))

theorem intChars_head (n : Int) :
    ∃ c t, intChars n = c :: t ∧ (c = '-' ∨ isDigitChar c = true) := by
  rw [intChars]
  split
  · exact ⟨'-', natDigits n.natAbs, rfl, Or.inl rfl⟩
  · obtain ⟨c, t, hct⟩ := List.exists_cons_of_ne_nil (natDigits_ne_nil n.toNat)
    refine ⟨c, t, hct, Or.inr ?_⟩
    have hall := natDigits_all_digits n.toNat
    rw [hct] at hall
    exact hall c (List.mem_cons_self c t)

/-- Every serialized value starts with a non-whitespace character that is
neither a closing bracket nor a closing brace. -/
theorem serVal_head (v : Json) (d : Nat) :
    ∃ c t, serVal v d = c :: t ∧ isWsChar c = false ∧ c ≠ ']' ∧ c ≠ '\x7d' := by
  cases v with
  | null => exact ⟨'n', ['u', 'l', 'l'], by simp [serVal], by decide, by decide, by decide⟩
  | bool b =>
    cases b with
    | true => exact ⟨'t', ['r', 'u', 'e'], by simp [serVal], by decide, by decide, by decide⟩
    | false =>
      exact ⟨'f', ['a', 'l', 's', 'e'], by simp [serVal], by decide, by decide, by decide⟩
  | num n =>
    obtain ⟨c, t, hct, hnum⟩ := intChars_head n
    obtain ⟨hw, hb1, hb2, _⟩ := numStart_props hnum
    exact ⟨c, t, by simp [serVal, hct], hw, hb1, hb2⟩
  | str s =>
    exact ⟨'"', escapeList s.data ++ ['"'], by simp [serVal], by decide, by decide, by decide⟩
  | arr xs =>
    cases xs with
    | nil => exact ⟨'[', [']'], by simp [serVal], by decide, by decide, by decide⟩
    | cons x tl =>
      exact ⟨'[', '\n' :: (serItems (JsonList.cons x tl) (d + 1) ++
        '\n' :: (indentChars d ++ [']'])), by simp [serVal], by decide, by decide, by decide⟩
  | obj ms =>
    cases ms with
    | nil => exact ⟨'\x7b', ['\x7d'], by simp [serVal], by decide, by decide, by decide⟩
    | cons k v tl =>
      exact ⟨'\x7b', '\n' :: (serMembers (JsonMembers.cons k v tl) (d + 1) ++
        '\n' :: (indentChars d ++ ['\x7d'])), by simp [serVal], by decide, by decide, by decide⟩

theorem skipWs_serVal (v : Json) (d : Nat) (rest : List Char) :
    skipWs (serVal v d ++ rest) = serVal v d ++ rest := by
  obtain ⟨c, t, hct, hws, _, _⟩ := serVal_head v d
  rw [hct, List.cons_append, skipWs_cons_not_ws hws]

theorem serItems_cons_append (x : Json) (tl : JsonList) (d2 : Nat) (ys : List Char) :
    serItems (JsonList.cons x tl) d2 ++ ys =
      indentChars d2 ++ (serVal x d2 ++ afterItem tl d2 ys) := by
  cases tl <;> simp [serItems, afterItem, List.append_assoc]

theorem serMembers_cons_append (k : String) (v : Json) (tl : JsonMembers)
    (d2 : Nat) (ys : List Char) :
    serMembers (JsonMembers.cons k v tl) d2 ++ ys =
      indentChars d2 ++ ('"' :: (escapeList k.data ++ '"' :: ':' :: ' ' ::
        (serVal v d2 ++ afterMember tl d2 ys))) := by
  cases tl <;> simp [serMembers, afterMember, List.append_assoc]

theorem delim_afterItem (tl : JsonList) (d2 : Nat) {ys : List Char}
    (h : Delim ys) : Delim (afterItem tl d2 ys) := by
  cases tl with
  | nil => exact h
  | cons y ys2 => simp [afterItem, Delim]

theorem delim_afterMember (tl : JsonMembers) (d2 : Nat) {ys : List Char}
    (h : Delim ys) : Delim (afterMember tl d2 ys) := by
  cases tl with
  | nil => exact h
  | cons k2 v2 ms2 => simp [afterMember, Delim]

theorem parseCore_succ (n : Nat) (cs : List Char) :
    parseCore (n + 1) cs = parseCoreAux (parseItems n) (parseMembers n) cs := rfl

theorem parseItems_succ (n : Nat) (cs : List Char) :
    parseItems (n + 1) cs = parseItemsAux (parseCore n) (parseItems n) cs := rfl

theorem parseMembers_succ (n : Nat) (cs : List Char) :
    parseMembers (n + 1) cs = parseMembersAux (parseCore n) (parseMembers n) cs := rfl

theorem sizeVal_pos (v : Json) : 1 ≤ sizeVal v := by
  cases v <;> simp [sizeVal]

theorem sizeItems_cons_pos (x : Json) (tl : JsonList) :
    1 ≤ sizeItems (JsonList.cons x tl) := by
  simp [sizeItems]
  omega

theorem sizeMembers_cons_pos (k : String) (v : Json) (tl : JsonMembers) :
    1 ≤ sizeMembers (JsonMembers.cons k v tl) := by
  simp [sizeMembers]
  omega

mutual

theorem sizeVal_le_length : ∀ (v : Json) (d : Nat), sizeVal v ≤ (serVal v d).length
  | .null, d => by simp [sizeVal, serVal]
  | .bool true, d => by simp [sizeVal, serVal]
  | .bool false, d => by simp [sizeVal, serVal]
  | .num n, d => by
    simp only [sizeVal, serVal]
    rw [intChars]
    split
    · simp
    · have := List.length_pos.mpr (natDigits_ne_nil n.toNat)
      omega
  | .str s, d => by simp [sizeVal, serVal]
  | .arr .nil, d => by simp [sizeVal, serVal, sizeItems]
  | .arr (.cons x tl), d => by
    have h := sizeItems_le_length (JsonList.cons x tl) (d + 1)
    simp only [sizeVal, serVal, List.length_cons, List.length_append] at h ⊢
    omega
  | .obj .nil, d => by simp [sizeVal, serVal, sizeMembers]
  | .obj (.cons k v tl), d => by
    have h := sizeMembers_le_length (JsonMembers.cons k v tl) (d + 1)
    simp only [sizeVal, serVal, List.length_cons, List.length_append] at h ⊢
    omega

theorem sizeItems_le_length : ∀ (xs : JsonList) (d : Nat),
    sizeItems xs ≤ (serItems xs d).length + 1
  | .nil, d => by simp [sizeItems, serItems]
  | .cons x .nil, d => by
    have h := sizeVal_le_length x d
    simp only [sizeItems, serItems, List.length_append]
    omega
  | .cons x (.cons y ys), d => by
    have h1 := sizeVal_le_length x d
    have h2 := sizeItems_le_length (JsonList.cons y ys) d
    simp only [sizeItems, serItems, List.length_append, List.length_cons] at h2 ⊢
    omega

theorem sizeMembers_le_length : ∀ (ms : JsonMembers) (d : Nat),
    sizeMembers ms ≤ (serMembers ms d).length + 1
  | .nil, d => by simp [sizeMembers, serMembers]
  | .cons k v .nil, d => by
    have h := sizeVal_le_length v d
    simp only [sizeMembers, serMembers, List.length_append, List.length_cons]
    omega
  | .cons k v (.cons k2 v2 tl), d => by
    have h1 := sizeVal_le_length v d
    have h2 := sizeMembers_le_length (JsonMembers.cons k2 v2 tl) d
    simp only [sizeMembers, serMembers, List.length_append, List.length_cons] at h2 ⊢
    omega

end

/-- Core round-trip invariant, proved by induction on the parser fuel: a
serialized value (item list, member list) followed by a legal delimiter is
parsed back exactly, consuming precisely its own text. -/
theorem parse_ser_main (fuel : Nat) :
    (∀ (v : Json) (d : Nat) (rest : List Char), sizeVal v ≤ fuel → Delim rest →
      parseCore fuel (serVal v d ++ rest) = some (v, rest)) ∧
    (∀ (xs : JsonList) (d2 dt : Nat) (rest : List Char), xs ≠ JsonList.nil →
      sizeItems xs ≤ fuel →
      parseItems fuel ('\n' :: (serItems xs d2 ++ '\n' :: (indentChars dt ++ ']' :: rest))) =
        some (xs, rest)) ∧
    (∀ (ms : JsonMembers) (d2 dt : Nat) (rest : List Char), ms ≠ JsonMembers.nil →
      sizeMembers ms ≤ fuel →
      parseMembers fuel
          ('\n' :: (serMembers ms d2 ++ '\n' :: (indentChars dt ++ '\x7d' :: rest))) =
        some (ms, rest)) := by
  induction fuel with
  | zero =>
    refine ⟨?_, ?_, ?_⟩
    · intro v d rest hf _
      exact absurd hf (by have := sizeVal_pos v; omega)
    · intro xs d2 dt rest hne hf
      cases xs with
      | nil => exact absurd rfl hne
      | cons x tl => exact absurd hf (by have := sizeItems_cons_pos x tl; omega)
    · intro ms d2 dt rest hne hf
      cases ms with
      | nil => exact absurd rfl hne
      | cons k v tl => exact absurd hf (by have := sizeMembers_cons_pos k v tl; omega)
  | succ fuel ih =>
    obtain ⟨ihV, ihI, ihM⟩ := ih
    refine ⟨?_, ?_, ?_⟩
    · intro v d rest hf hdel
      rw [parseCore_succ]
      cases v with
      | null =>
        simp only [serVal, List.cons_append, List.nil_append]
        simp [parseCoreAux]
      | bool b =>
        cases b with
        | true =>
          simp only [serVal, List.cons_append, List.nil_append]
          simp [parseCoreAux]
        | false =>
          simp only [serVal, List.cons_append, List.nil_append]
          simp [parseCoreAux]
      | num n =>
        obtain ⟨c, t, hct, hnum⟩ := intChars_head n
        obtain ⟨hw, hrb, hrc, hn1, hn2, hn3, hn4, hn5, hn6⟩ := numStart_props hnum
        have hcond : (decide (c = '-') || isDigitChar c) = true := by
          rcases hnum with h | h
          · subst h
            simp
          · rw [h, Bool.or_true]
        simp only [serVal]
        rw [hct, List.cons_append]
        simp only [parseCoreAux]
        rw [if_neg hn1, if_neg hn2, if_neg hn3, if_neg hn4, if_neg hn5, if_neg hn6,
          if_pos hcond]
        rw [← List.cons_append, ← hct]
        exact parseNumber_intChars n (delim_notDigitStart hdel)
      | str s =>
        simp only [serVal, List.cons_append, List.append_assoc, List.singleton_append,
            List.nil_append]
        simp only [parseCoreAux]
        simp [parseStringBody_escape, string_mk_data]
      | arr xs =>
        cases xs with
        | nil =>
          simp only [serVal, List.cons_append, List.nil_append]
          simp [parseCoreAux, skipWs, isWsChar]
        | cons x tl =>
          have hsz : sizeItems (JsonList.cons x tl) ≤ fuel := by
            simp only [sizeVal] at hf
            omega
          have hitems := ihI (JsonList.cons x tl) (d + 1) d rest (by simp) hsz
          simp only [serVal, List.cons_append, List.append_assoc, List.singleton_append,
            List.nil_append]
          simp only [parseCoreAux]
          obtain ⟨c0, t0, hct0, hws0, hne0, _⟩ := serVal_head x (d + 1)
          have hsc : skipWs ('\n' :: (serItems (JsonList.cons x tl) (d + 1) ++
              '\n' :: (indentChars d ++ ']' :: rest)))
              = c0 :: (t0 ++ afterItem tl (d + 1)
                  ('\n' :: (indentChars d ++ ']' :: rest))) := by
            rw [skipWs_newline, serItems_cons_append, skipWs_indent, skipWs_serVal, hct0,
              List.cons_append]
          rw [hsc]
          simp [hne0, hitems]
      | obj ms =>
        cases ms with
        | nil =>
          simp only [serVal, List.cons_append, List.nil_append]
          simp [parseCoreAux, skipWs, isWsChar]
        | cons k v tl =>
          have hsz : sizeMembers (JsonMembers.cons k v tl) ≤ fuel := by
            simp only [sizeVal] at hf
            omega
          have hmembers := ihM (JsonMembers.cons k v tl) (d + 1) d rest (by simp) hsz
          simp only [serVal, List.cons_append, List.append_assoc, List.singleton_append,
            List.nil_append]
          simp only [parseCoreAux]
          have hsc : skipWs ('\n' :: (serMembers (JsonMembers.cons k v tl) (d + 1) ++
              '\n' :: (indentChars d ++ '\x7d' :: rest)))
              = '"' :: (escapeList k.data ++ '"' :: ':' :: ' ' ::
                  (serVal v (d + 1) ++ afterMember tl (d + 1)
                    ('\n' :: (indentChars d ++ '\x7d' :: rest)))) := by
            rw [skipWs_newline, serMembers_cons_append, skipWs_indent,
              skipWs_cons_not_ws (by decide)]
          rw [hsc]
          simp [hmembers]
    · intro xs d2 dt rest hne hf
      cases xs with
      | nil => exact absurd rfl hne
      | cons x tl =>
        rw [parseItems_succ]
        simp only [parseItemsAux]
        have hsz : sizeVal x ≤ fuel := by
          simp only [sizeItems] at hf
          omega
        have hdel : Delim (afterItem tl d2 ('\n' :: (indentChars dt ++ ']' :: rest))) :=
          delim_afterItem tl d2 (by simp [Delim])
        have hsc : skipWs ('\n' :: (serItems (JsonList.cons x tl) d2 ++
            '\n' :: (indentChars dt ++ ']' :: rest)))
            = serVal x d2 ++ afterItem tl d2 ('\n' :: (indentChars dt ++ ']' :: rest)) := by
          rw [skipWs_newline, serItems_cons_append, skipWs_indent, skipWs_serVal]
        rw [hsc, ihV x d2 _ hsz hdel]
        simp only [Option.some_bind]
        cases tl with
        | nil =>
          have hsk : skipWs (afterItem JsonList.nil d2
              ('\n' :: (indentChars dt ++ ']' :: rest))) = ']' :: rest := by
            simp only [afterItem]
            rw [skipWs_newline, skipWs_indent, skipWs_cons_not_ws (by decide)]
          rw [hsk]
          simp
        | cons y ys2 =>
          have hsz2 : sizeItems (JsonList.cons y ys2) ≤ fuel := by
            simp only [sizeItems] at hf ⊢
            omega
          have hsk : skipWs (afterItem (JsonList.cons y ys2) d2
              ('\n' :: (indentChars dt ++ ']' :: rest)))
              = ',' :: ('\n' :: (serItems (JsonList.cons y ys2) d2 ++
                  '\n' :: (indentChars dt ++ ']' :: rest))) := by
            simp only [afterItem]
            rw [skipWs_cons_not_ws (by decide)]
          rw [hsk]
          have hrec := ihI (JsonList.cons y ys2) d2 dt rest (by simp) hsz2
          simp [hrec]
    · intro ms d2 dt rest hne hf
      cases ms with
      | nil => exact absurd rfl hne
      | cons k v tl =>
        rw [parseMembers_succ]
        simp only [parseMembersAux]
        have hsz : sizeVal v ≤ fuel := by
          simp only [sizeMembers] at hf
          omega
        have hdel : Delim (afterMember tl d2 ('\n' :: (indentChars dt ++ '\x7d' :: rest))) :=
          delim_afterMember tl d2 (by simp [Delim])
        have hsc : skipWs ('\n' :: (serMembers (JsonMembers.cons k v tl) d2 ++
            '\n' :: (indentChars dt ++ '\x7d' :: rest)))
            = '"' :: (escapeList k.data ++ '"' :: ':' :: ' ' ::
                (serVal v d2 ++ afterMember tl d2
                  ('\n' :: (indentChars dt ++ '\x7d' :: rest)))) := by
          rw [skipWs_newline, serMembers_cons_append, skipWs_indent,
            skipWs_cons_not_ws (by decide)]
        have hval := ihV v d2
          (afterMember tl d2 ('\n' :: (indentChars dt ++ '\x7d' :: rest))) hsz hdel
        rw [hsc]
        simp [parseStringBody_escape, skipWs_cons_not_ws, isWsChar, skipWs_space,
          skipWs_serVal, hval, string_mk_data]
        cases tl with
        | nil =>
          have hsk : skipWs (afterMember JsonMembers.nil d2
              ('\n' :: (indentChars dt ++ '\x7d' :: rest))) = '\x7d' :: rest := by
            simp only [afterMember]
            rw [skipWs_newline, skipWs_indent, skipWs_cons_not_ws (by decide)]
          rw [hsk]
          simp
        | cons k2 v2 ms2 =>
          have hsz2 : sizeMembers (JsonMembers.cons k2 v2 ms2) ≤ fuel := by
            simp only [sizeMembers] at hf ⊢
            omega
          have hsk : skipWs (afterMember (JsonMembers.cons k2 v2 ms2) d2
              ('\n' :: (indentChars dt ++ '\x7d' :: rest)))
              = ',' :: ('\n' :: (serMembers (JsonMembers.cons k2 v2 ms2) d2 ++
                  '\n' :: (indentChars dt ++ '\x7d' :: rest))) := by
            simp only [afterMember]
            rw [skipWs_cons_not_ws (by decide)]
          rw [hsk]
          have hrec := ihM (JsonMembers.cons k2 v2 ms2) d2 dt rest (by simp) hsz2
          simp [hrec]

/-- Round-trip law: parsing the serialized form of any document yields the
document back. -/
theorem parse_serialize_roundtrip (v : Json) : parseJson (serialize v) = some v := by
  have hlen := sizeVal_le_length v 0
  have hmain := (parse_ser_main ((serVal v 0).length + 1)).1 v 0 []
    (by omega) (by simp [Delim])
  rw [List.append_nil] at hmain
  have hskip : skipWs (serVal v 0) = serVal v 0 := by
    have h := skipWs_serVal v 0 []
    rwa [List.append_nil] at h
  simp only [serialize, parseJson]
  rw [hskip, hmain]
  simp [skipWs]

/-! Part 9: lemmas about the component state machine. -/

theorem runParseEffect_frame {T : Type} (p : Json → Option T) (s : AppState T) :
    (runParseEffect p s).schema = s.schema ∧
    (runParseEffect p s).jsonInput = s.jsonInput ∧
    (runParseEffect p s).view = s.view ∧
    (runParseEffect p s).copied = s.copied ∧
    (runParseEffect p s).showSampleDropdown = s.showSampleDropdown := by
  obtain ⟨sch, ps, vw, er, cp, ji, dd⟩ := s
  cases sch with
  | none => exact ⟨rfl, rfl, rfl, rfl, rfl⟩
  | some v =>
    rw [runParseEffect]
    dsimp only
    split
    · cases hp : p v <;> simp
    · exact ⟨rfl, rfl, rfl, rfl, rfl⟩

theorem runParseEffect_schema {T : Type} (p : Json → Option T) (s : AppState T) :
    (runParseEffect p s).schema = s.schema := (runParseEffect_frame p s).1

theorem runParseEffect_jsonInput {T : Type} (p : Json → Option T) (s : AppState T) :
    (runParseEffect p s).jsonInput = s.jsonInput := (runParseEffect_frame p s).2.1

theorem handleUrlLoad_some {T : Type} (x : Json) (s : AppState T) :
    handleUrlLoad (some x) s =
      { s with schema := some x, jsonInput := serialize x, error := none } := rfl

theorem loadExample_some {T : Type} (x : Json) (s : AppState T) :
    loadExample (some x) s =
      { s with schema := some x, jsonInput := serialize x, error := none,
               showSampleDropdown := false } := rfl

theorem urlLoadOp_some {T : Type} (p : Json → Option T) (x : Json) (s : AppState T) :
    urlLoadOp p (some x) s = runParseEffect p
      { s with schema := some x, jsonInput := serialize x, error := none } := rfl

theorem loadExampleOp_some {T : Type} (p : Json → Option T) (x : Json) (s : AppState T) :
    loadExampleOp p (some x) s = runParseEffect p
      { s with schema := some x, jsonInput := serialize x, error := none,
               showSampleDropdown := false } := rfl

theorem fileUploadOp_success {T : Type} (p : Json → Option T) (t : String) (v : Json)
    (s : AppState T) (h : parseJson t = some v) :
    fileUploadOp p t s = runParseEffect p
      { s with schema := some v, jsonInput := serialize v, error := none } := by
  simp [fileUploadOp, handleFileUpload, h]

theorem jsonInputOp_success {T : Type} (p : Json → Option T) (u : String) (v : Json)
    (s : AppState T) (htrim : jsTrimNonempty u = true) (h : parseJson u = some v) :
    jsonInputOp p u s = runParseEffect p
      { s with jsonInput := u, schema := some v, error := none } := by
  simp [jsonInputOp, handleJsonInput, htrim, h]

theorem urlLoadOp_schema {T : Type} (p : Json → Option T) (x : Json) (s : AppState T) :
    (urlLoadOp p (some x) s).schema = some x := by
  rw [urlLoadOp_some, runParseEffect_schema]

theorem loadExampleOp_schema {T : Type} (p : Json → Option T) (x : Json) (s : AppState T) :
    (loadExampleOp p (some x) s).schema = some x := by
  rw [loadExampleOp_some, runParseEffect_schema]

theorem runParseEffect_fail {T : Type} (p : Json → Option T) (v : Json) (s : AppState T)
    (hs : s.schema = some v) (htr : truthy v = true) (hp : p v = none) :
    runParseEffect p s = { s with error := some "Failed to parse schema" } := by
  simp [runParseEffect, hs, htr, hp]

theorem runParseEffect_error_cases {T : Type} (p : Json → Option T) (s : AppState T) :
    (runParseEffect p s).error = s.error ∨
      (runParseEffect p s).error = some "Failed to parse schema" := by
  obtain ⟨sch, ps, vw, er, cp, ji, dd⟩ := s
  cases sch with
  | none => exact Or.inl rfl
  | some v =>
    rw [runParseEffect]
    dsimp only
    split
    · cases hp : p v with
      | none => exact Or.inr rfl
      | some t => exact Or.inl rfl
    · exact Or.inl rfl

theorem render_source_of_truthy {T : Type} (s : AppState T) (v : Json)
    (hs : s.schema = some v) (htr : truthy v = true) :
    render (setViewOp ViewMode.source s) = Rendered.sourceView (serialize v) := by
  simp [render, setViewOp, hs, htr]

/-! Part 10: the claims. -/

/-- C1, counterexample: pasting the whitespace-only text, which is not
valid JSON, leaves the last-good Document in place but sets no LoadError
message at all, so the claim that every failing loader operation sets a
LoadError is false as stated. -/
theorem claim_C1_counterexample :
    (parseJson " " = none) ∧
    (jsonInputOp (fun _ : Json => some ()) " "
      { schema := some (Json.bool true), parsedSchema := some (),
        view := ViewMode.source, error := none, copied := false, jsonInput := "true",
        showSampleDropdown := false }).error = none ∧
    (jsonInputOp (fun _ : Json => some ()) " "
      { schema := some (Json.bool true), parsedSchema := some (),
        view := ViewMode.source, error := none, copied := false, jsonInput := "true",
        showSampleDropdown := false }).schema = some (Json.bool true) :=
  ⟨rfl, rfl, rfl⟩

/-- C1, amended: a failing file upload, URL load or sample load, and a
failing paste of text whose trimmed form is nonempty, leave the Document
and the normalized tree unchanged and set the corresponding LoadError
message; pasting whitespace-only text is a no-op apart from the editor
text: it sets no error and also keeps any prior error. No failure path
clears or replaces the last-good Document. -/
theorem claim_C1_amended {T : Type} (p : Json → Option T) (s : AppState T)
    (t u : String) :
    (parseJson t = none → fileUploadOp p t s =
      { s with error := some "Invalid JSON file" }) ∧
    (jsTrimNonempty u = true → parseJson u = none → jsonInputOp p u s =
      { s with jsonInput := u, error := some "Invalid JSON format" }) ∧
    (jsTrimNonempty u = false → jsonInputOp p u s = { s with jsonInput := u }) ∧
    (urlLoadOp p none s = { s with error := some "Failed to load schema from URL" }) ∧
    (loadExampleOp p none s = { s with error := some "Failed to load example schema" }) := by
  refine ⟨?_, ?_, ?_, rfl, rfl⟩
  · intro h
    simp [fileUploadOp, handleFileUpload, h]
  · intro htrim h
    simp [jsonInputOp, handleJsonInput, htrim, h]
  · intro htrim
    simp [jsonInputOp, handleJsonInput, htrim]

theorem claim_C1_amended_witness :
    (fileUploadOp (fun _ : Json => some ()) "not json" (initialState Unit) =
      { (initialState Unit) with error := some "Invalid JSON file" }) ∧
    (jsonInputOp (fun _ : Json => some ()) "not json" (initialState Unit) =
      { (initialState Unit) with
          jsonInput := "not json", error := some "Invalid JSON format" }) ∧
    (jsonInputOp (fun _ : Json => some ()) " " (initialState Unit) =
      { (initialState Unit) with jsonInput := " " }) :=
  ⟨(claim_C1_amended (fun _ => some ()) (initialState Unit) "not json" "not json").1 rfl,
   (claim_C1_amended (fun _ => some ()) (initialState Unit) "not json" "not json").2.1
     rfl rfl,
   (claim_C1_amended (fun _ => some ()) (initialState Unit) "not json" " ").2.2.1 rfl⟩

/-- C2, counterexample: two overlapping loads where the first-initiated load
(result X) resolves after the second-initiated load (result Y). The code has
no request token, so the stale first-initiated response is applied when it
arrives and the final Document is X, not the most recently initiated Y:
the claimed stale-response discard does not exist. -/
theorem claim_C2_counterexample :
    (overlappingLoadsOutOfOrder (fun _ : Json => some ()) (some (Json.str "X"))
        (some (Json.str "Y")) (initialState Unit)).schema = some (Json.str "X") ∧
    Json.str "X" ≠ Json.str "Y" := by
  constructor
  · rw [overlappingLoadsOutOfOrder, urlLoadOp_schema]
  · simp

/-- C2, amended: the Document visible after a pair of asynchronous loads
settles is the one from the most recently resolved successful load, not the
most recently initiated one: the code applies each response in arrival
order with no request token, so an earlier-initiated load that resolves
last overwrites a later-initiated one, whatever the result of the
later-initiated load was. -/
theorem claim_C2_amended {T : Type} (p : Json → Option T) (x : Json)
    (y : Option Json) (s : AppState T) :
    (overlappingLoadsOutOfOrder p (some x) y s).schema = some x ∧
    (urlLoadOp p (some x) s).schema = some x ∧
    (loadExampleOp p (some x) s).schema = some x := by
  refine ⟨?_, urlLoadOp_schema p x s, loadExampleOp_schema p x s⟩
  rw [overlappingLoadsOutOfOrder, urlLoadOp_schema]

/-- C3: the round-trip law. Parsing, with the paste-path parser modelling
JSON.parse, the two-space-indented serialization produced by copy/export,
modelling JSON.stringify(D, null, 2), yields the original document back
for every document D. -/
theorem claim_C3_roundtrip (v : Json) : parseJson (serialize v) = some v :=
  parse_serialize_roundtrip v

/-- C4: when a load succeeds with a (truthy) document on which parseSchema
throws, the document stays loaded, the error banner shows the
normalization failure, and the source view still renders the serialized
document text; this holds on every loader path. -/
theorem claim_C4_parse_failure_keeps_source_view {T : Type} (p : Json → Option T)
    (s : AppState T) (t u : String) (v : Json) (hp : p v = none)
    (htr : truthy v = true) :
    (parseJson t = some v →
      (fileUploadOp p t s).schema = some v ∧
      (fileUploadOp p t s).error = some "Failed to parse schema" ∧
      render (setViewOp ViewMode.source (fileUploadOp p t s)) =
        Rendered.sourceView (serialize v)) ∧
    ((urlLoadOp p (some v) s).schema = some v ∧
      (urlLoadOp p (some v) s).error = some "Failed to parse schema" ∧
      render (setViewOp ViewMode.source (urlLoadOp p (some v) s)) =
        Rendered.sourceView (serialize v)) ∧
    ((loadExampleOp p (some v) s).schema = some v ∧
      (loadExampleOp p (some v) s).error = some "Failed to parse schema" ∧
      render (setViewOp ViewMode.source (loadExampleOp p (some v) s)) =
        Rendered.sourceView (serialize v)) ∧
    (jsTrimNonempty u = true → parseJson u = some v →
      (jsonInputOp p u s).schema = some v ∧
      (jsonInputOp p u s).error = some "Failed to parse schema" ∧
      render (setViewOp ViewMode.source (jsonInputOp p u s)) =
        Rendered.sourceView (serialize v)) := by
  refine ⟨?_, ?_, ?_, ?_⟩
  · intro h
    rw [fileUploadOp_success p t v s h, runParseEffect_fail p v _ rfl htr hp]
    exact ⟨rfl, rfl, render_source_of_truthy _ v rfl htr⟩
  · rw [urlLoadOp_some, runParseEffect_fail p v _ rfl htr hp]
    exact ⟨rfl, rfl, render_source_of_truthy _ v rfl htr⟩
  · rw [loadExampleOp_some, runParseEffect_fail p v _ rfl htr hp]
    exact ⟨rfl, rfl, render_source_of_truthy _ v rfl htr⟩
  · intro htrim h
    rw [jsonInputOp_success p u v s htrim h, runParseEffect_fail p v _ rfl htr hp]
    exact ⟨rfl, rfl, render_source_of_truthy _ v rfl htr⟩

theorem claim_C4_witness :
    ((fileUploadOp (fun _ : Json => (none : Option Unit)) "true"
        (initialState Unit)).schema = some (Json.bool true) ∧
      (fileUploadOp (fun _ : Json => (none : Option Unit)) "true"
        (initialState Unit)).error = some "Failed to parse schema" ∧
      render (setViewOp ViewMode.source (fileUploadOp (fun _ : Json => (none : Option Unit))
        "true" (initialState Unit))) = Rendered.sourceView (serialize (Json.bool true))) ∧
    ((urlLoadOp (fun _ : Json => (none : Option Unit)) (some (Json.bool true))
        (initialState Unit)).schema = some (Json.bool true) ∧
      (urlLoadOp (fun _ : Json => (none : Option Unit)) (some (Json.bool true))
        (initialState Unit)).error = some "Failed to parse schema" ∧
      render (setViewOp ViewMode.source (urlLoadOp (fun _ : Json => (none : Option Unit))
          (some (Json.bool true)) (initialState Unit))) =
        Rendered.sourceView (serialize (Json.bool true))) :=
  ⟨(claim_C4_parse_failure_keeps_source_view (fun _ => none) (initialState Unit) "true"
      "true" (Json.bool true) rfl rfl).1 rfl,
   (claim_C4_parse_failure_keeps_source_view (fun _ => none) (initialState Unit) "true"
      "true" (Json.bool true) rfl rfl).2.1⟩

/-- C5, counterexample: the Document false is loadable (the text false is
valid JSON) but is JavaScript-falsy, so the guards written as if (schema)
in handleCopy and handleExport skip both operations: no text at all is
produced, contradicting the claim that for every loaded Document the
produced text equals its serialization. -/
theorem claim_C5_counterexample :
    loadedFalseState.schema = some (Json.bool false) ∧
    (handleCopy true loadedFalseState).2 = none ∧
    (handleExport loadedFalseState).2 = none :=
  ⟨rfl, rfl, rfl⟩

/-- C5, amended: for every loaded Document whose value is JavaScript-truthy
(the only case in which the copy and export controls are live), the copy
text and the exported file body are both exactly the two-space-indented
serialization of the raw Document, with its original member order, and the
export filename is schema.json; for a falsy Document (false, 0, the empty
string, null) both operations are no-ops and produce no text. -/
theorem claim_C5_amended {T : Type} (b : Bool) (s : AppState T) (v : Json)
    (hs : s.schema = some v) (htr : truthy v = true) :
    (handleCopy b s).2 = some (serialize v) ∧
    (handleExport s).2 = some (serialize v, "schema.json") ∧
    (handleCopy b s).2 = ((handleExport s).2).map Prod.fst := by
  refine ⟨?_, ?_, ?_⟩ <;> simp [handleCopy, handleExport, hs, htr]

theorem claim_C5_amended_witness :
    (handleCopy true loadedObjState).2 = some (serialize (Json.obj JsonMembers.nil)) ∧
    (handleExport loadedObjState).2 =
      some (serialize (Json.obj JsonMembers.nil), "schema.json") :=
  ⟨(claim_C5_amended true loadedObjState (Json.obj JsonMembers.nil) rfl rfl).1,
   (claim_C5_amended true loadedObjState (Json.obj JsonMembers.nil) rfl rfl).2.1⟩

/-- C6: on the success path of each loader handler, the parsed value
replaces the previous Document wholesale and the error state is reset to
none, whatever error was pending before; this is the Loader contract, the
separate normalization effect is covered by C4. -/
theorem claim_C6_success_replaces_and_clears {T : Type} (s : AppState T)
    (t u : String) (v : Json) :
    (parseJson t = some v → handleFileUpload t s =
      { s with schema := some v, jsonInput := serialize v, error := none }) ∧
    (jsTrimNonempty u = true → parseJson u = some v → handleJsonInput u s =
      { s with jsonInput := u, schema := some v, error := none }) ∧
    (handleUrlLoad (some v) s =
      { s with schema := some v, jsonInput := serialize v, error := none }) ∧
    (loadExample (some v) s =
      { s with schema := some v, jsonInput := serialize v, error := none,
               showSampleDropdown := false }) := by
  refine ⟨?_, ?_, rfl, rfl⟩
  · intro h
    simp [handleFileUpload, h]
  · intro htrim h
    simp [handleJsonInput, htrim, h]

theorem claim_C6_witness :
    (handleFileUpload "true" ({ (initialState Unit) with error := some "old" }) =
      { ({ (initialState Unit) with error := some "old" }) with
          schema := some (Json.bool true), jsonInput := serialize (Json.bool true),
          error := none }) ∧
    (handleJsonInput "true" ({ (initialState Unit) with error := some "old" }) =
      { ({ (initialState Unit) with error := some "old" }) with
          jsonInput := "true", schema := some (Json.bool true), error := none }) :=
  ⟨(claim_C6_success_replaces_and_clears _ "true" "true" (Json.bool true)).1 rfl,
   (claim_C6_success_replaces_and_clears _ "true" "true" (Json.bool true)).2.1 rfl rfl⟩

/-- C7, counterexample: handleCopy fires navigator.clipboard.writeText
without awaiting or catching the returned promise, so a failed clipboard
write (clipboardOk = false) produces a state identical to a successful one:
the copied success flag is set, no error is reported. The in-memory
Document is indeed unchanged, but the claimed failure reporting does not
exist. -/
theorem claim_C7_counterexample :
    handleCopy false loadedObjState = handleCopy true loadedObjState ∧
    (handleCopy false loadedObjState).1.copied = true ∧
    (handleCopy false loadedObjState).1.error = none ∧
    (handleCopy false loadedObjState).1.schema = loadedObjState.schema :=
  ⟨rfl, rfl, rfl, rfl⟩

/-- C7, amended: the copy and export handlers leave the in-memory Document
unchanged in every outcome, but neither reports side-effect failure: the
state after copy does not depend on whether the clipboard write succeeds
(copy shows the success flag whenever a truthy Document is present), and
export returns the state untouched. -/
theorem claim_C7_amended {T : Type} (b : Bool) (s : AppState T) :
    handleCopy b s = handleCopy true s ∧
    (handleCopy b s).1.schema = s.schema ∧
    (handleCopy b s).1.error = s.error ∧
    (handleExport s).1 = s := by
  refine ⟨rfl, ?_, ?_, ?_⟩
  · obtain ⟨sch, ps, vw, er, cp, ji, dd⟩ := s
    cases sch with
    | none => rfl
    | some v =>
      rw [handleCopy]
      dsimp only
      split <;> rfl
  · obtain ⟨sch, ps, vw, er, cp, ji, dd⟩ := s
    cases sch with
    | none => rfl
    | some v =>
      rw [handleCopy]
      dsimp only
      split <;> rfl
  · obtain ⟨sch, ps, vw, er, cp, ji, dd⟩ := s
    cases sch with
    | none => rfl
    | some v =>
      rw [handleExport]
      dsimp only
      split <;> rfl

/-- C8: switching the view mode only changes the view field; the Document,
the normalized tree, the editor text, the error, and the remaining state
are untouched. -/
theorem claim_C8_view_switch_frame {T : Type} (m : ViewMode) (s : AppState T) :
    (setViewOp m s).view = m ∧ (setViewOp m s).schema = s.schema ∧
    (setViewOp m s).parsedSchema = s.parsedSchema ∧
    (setViewOp m s).jsonInput = s.jsonInput ∧ (setViewOp m s).error = s.error ∧
    (setViewOp m s).copied = s.copied ∧
    (setViewOp m s).showSampleDropdown = s.showSampleDropdown :=
  ⟨rfl, rfl, rfl, rfl, rfl, rfl, rfl⟩

/-- C9: the paste path stores the raw text and raises the invalid-JSON
error exactly when the trimmed text is nonempty and the parse fails;
whitespace-only text changes only the editor text, keeping the Document,
the normalized tree and any prior error exactly as they were; on a
successful parse the invalid-JSON error is never raised (the error
becomes none, or the separate normalization failure message). -/
theorem claim_C9_paste_error_characterization {T : Type} (p : Json → Option T)
    (value : String) (s : AppState T) :
    (jsTrimNonempty value = false →
      jsonInputOp p value s = { s with jsonInput := value }) ∧
    (jsTrimNonempty value = true → parseJson value = none →
      jsonInputOp p value s =
        { s with jsonInput := value, error := some "Invalid JSON format" }) ∧
    (jsTrimNonempty value = true → ∀ v, parseJson value = some v →
      (jsonInputOp p value s).error = none ∨
        (jsonInputOp p value s).error = some "Failed to parse schema") := by
  refine ⟨?_, ?_, ?_⟩
  · intro htrim
    simp [jsonInputOp, handleJsonInput, htrim]
  · intro htrim h
    simp [jsonInputOp, handleJsonInput, htrim, h]
  · intro htrim v h
    rw [jsonInputOp_success p value v s htrim h]
    rcases runParseEffect_error_cases p
      { s with jsonInput := value, schema := some v, error := none } with he | he
    · exact Or.inl he
    · exact Or.inr he

theorem claim_C9_witness :
    (jsonInputOp (fun _ : Json => some ()) " " loadedObjState =
      { loadedObjState with jsonInput := " " }) ∧
    (jsonInputOp (fun _ : Json => some ()) "not json" loadedObjState =
      { loadedObjState with
          jsonInput := "not json", error := some "Invalid JSON format" }) ∧
    ((jsonInputOp (fun _ : Json => some ()) "true" loadedObjState).error = none ∨
      (jsonInputOp (fun _ : Json => some ()) "true" loadedObjState).error =
        some "Failed to parse schema") :=
  ⟨(claim_C9_paste_error_characterization (fun _ => some ()) " " loadedObjState).1 rfl,
   (claim_C9_paste_error_characterization (fun _ => some ()) "not json"
     loadedObjState).2.1 rfl rfl,
   (claim_C9_paste_error_characterization (fun _ => some ()) "true"
     loadedObjState).2.2 rfl (Json.bool true) rfl⟩

/-- C10: every successful load through the file, URL or sample path mirrors
the two-space-indented serialization of the new Document into the editor
text, while the paste path keeps the raw user text. -/
theorem claim_C10_editor_sync {T : Type} (p : Json → Option T) (s : AppState T)
    (t u : String) (v : Json) :
    (parseJson t = some v → (fileUploadOp p t s).jsonInput = serialize v) ∧
    ((urlLoadOp p (some v) s).jsonInput = serialize v) ∧
    ((loadExampleOp p (some v) s).jsonInput = serialize v) ∧
    (jsTrimNonempty u = true → parseJson u = some v →
      (jsonInputOp p u s).jsonInput = u) := by
  refine ⟨?_, ?_, ?_, ?_⟩
  · intro h
    rw [fileUploadOp_success p t v s h, runParseEffect_jsonInput]
  · rw [urlLoadOp_some, runParseEffect_jsonInput]
  · rw [loadExampleOp_some, runParseEffect_jsonInput]
  · intro htrim h
    rw [jsonInputOp_success p u v s htrim h, runParseEffect_jsonInput]

theorem claim_C10_witness :
    ((fileUploadOp (fun _ : Json => some ()) "true" (initialState Unit)).jsonInput =
      serialize (Json.bool true)) ∧
    ((jsonInputOp (fun _ : Json => some ()) "true" (initialState Unit)).jsonInput =
      "true") :=
  ⟨(claim_C10_editor_sync (fun _ => some ()) (initialState Unit) "true" "true"
      (Json.bool true)).1 rfl,
   (claim_C10_editor_sync (fun _ => some ()) (initialState Unit) "true" "true"
      (Json.bool true)).2.2.2 rfl rfl⟩
